import Mathlib

/-
  Verification development for the clone orchestration core
  (builtin/clone.c of the resumable-clone git fork).

  The embedding works on `List Char` for path/URL manipulating code
  (faithful to the byte-wise C string handling, restricted to '/' as the
  only directory separator, as on Linux) and on `String` for opaque path
  and ref-name values that are only compared, concatenated and looked up.

  External collaborators that are not part of the source tree (the ref
  storage backend's transaction commit, strbuf line reading) are modelled
  from the spec and carry a doc comment saying so.
-/

set_option maxHeartbeats 1000000

namespace CloneC

/-! ## Character classification (ctype, git-compat-util)

`is_dir_sep` is `c == '/'` on Linux; `isspace` is the C locale set;
the "control character" test in `guess_dir_name` is `(unsigned char)ch < 0x20`. -/

def isDirSep (c : Char) : Bool := c = '/'

def cIsSpace (c : Char) : Bool :=
  c = ' ' || c = '\t' || c = '\n' || c.toNat = 11 || c.toNat = 12 || c = '\r'

def cIsDigit (c : Char) : Bool := '0' ≤ c && c ≤ '9'

/-! ## guess_dir_name (clone.c:176-279)

Each phase of the C function becomes one definition, composed in
source order by `guess_dir_name`. The C function works on a window
`[start, end)` of the input; the phases below each take the current
window as a list and return the new window. -/

/-- Scheme skipping, clone.c:185-189: `start = strstr(repo, "://")`,
advanced past the first occurrence, or the whole string when absent. -/
def afterScheme : List Char → Option (List Char)
  | [] => none
  | ':' :: '/' :: '/' :: rest => some rest
  | _ :: rest => afterScheme rest

def skipScheme (l : List Char) : List Char := (afterScheme l).getD l

/-- Authentication-data stripping, clone.c:196-199: advance `start` past
the last '@' occurring before the first directory separator. -/
def afterLastAt : List Char → Option (List Char)
  | [] => none
  | c :: rest =>
    if isDirSep c then none
    else match afterLastAt rest with
         | some r => some r
         | none => if c = '@' then some rest else none

def stripAuth (l : List Char) : List Char := (afterLastAt l).getD l

/-- Backward stripping of characters satisfying `p`, as the C loops
`while (start < end && p(end[-1])) end--`. -/
def dropTrailing (p : Char → Bool) (l : List Char) : List Char :=
  (l.reverse.dropWhile p).reverse

/-- Trailing `/.git` stripping, clone.c:206-211: requires a window longer
than 5, a directory separator at `end[-5]` and `.git` as the last four
characters; afterwards trailing separators are dropped again. -/
def stripDotGit (l : List Char) : List Char :=
  if 5 < l.length && ('/' :: '.' :: 'g' :: 'i' :: 't' :: []).isSuffixOf l then
    dropTrailing isDirSep (l.take (l.length - 5))
  else l

/-- Trailing port stripping, clone.c:221-228: only applies when the window
has a ':' but no '/', and strips a trailing `:<digits>` (possibly empty
digit run). -/
def stripPort (l : List Char) : List Char :=
  if '/' ∈ l then l
  else if ':' ∉ l then l
  else match l.reverse.dropWhile cIsDigit with
       | ':' :: rest => rest.reverse
       | _ => l

/-- Last-component selection, clone.c:236-239: walk `ptr` back while the
preceding character is neither a directory separator nor ':'. -/
def lastComponent (l : List Char) : List Char :=
  (l.reverse.takeWhile (fun c => !(isDirSep c) && !(c = ':'))).reverse

/-- strip_suffix_mem, used at clone.c:245: remove one occurrence of the
suffix when present. -/
def stripSuffixMem (sfx l : List Char) : List Char :=
  if sfx.isSuffixOf l then l.take (l.length - sfx.length) else l

/-- Control-character mapping inside the collapse pass, clone.c:263-265:
`if ((unsigned char)ch < '\x20') ch = '\x20'`. -/
def ctrl_to_space (c : Char) : Char := if c.toNat < 32 then ' ' else c

/-- Whitespace collapsing, clone.c:259-277: control characters become a
space, runs of spaces collapse to one, leading spaces are skipped (the
boolean argument is `prev_space`, initially 1). -/
def collapseStep : List Char → Bool → List Char
  | [], _ => []
  | c :: rest, prevSpace =>
    if cIsSpace (ctrl_to_space c) then
      if prevSpace then collapseStep rest true
      else ctrl_to_space c :: collapseStep rest true
    else ctrl_to_space c :: collapseStep rest false

/-- Trailing-space trim, clone.c:275-276: drop the one trailing space the
collapse pass may have written. -/
def collapse (l : List Char) : List Char :=
  let r := collapseStep l true
  if r.getLast? = some ' ' then r.dropLast else r

/-- Phases 1-6 of guess_dir_name, clone.c:182-245: the window
`[start, end)` right before the empty-name check, minus the suffix. -/
def guess_core (repo : List Char) (is_bundle : Bool) : List Char :=
  stripSuffixMem (if is_bundle then ".bundle".toList else ".git".toList)
    (lastComponent (stripPort (stripDotGit
      (dropTrailing (fun c => isDirSep c || cIsSpace c)
        (stripAuth (skipScheme repo))))))

/-- guess_dir_name, clone.c:176-279, as the composition of its phases.
Returns `none` where the C function dies ("No directory name could be
guessed"). -/
def guess_dir_name (repo : List Char) (is_bundle is_bare : Bool) : Option (List Char) :=
  let s6 := guess_core repo is_bundle
  if s6.length = 0 || (s6.length = 1 && s6 = ['/']) then none
  else some (collapse (if is_bare then s6 ++ ".git".toList else s6))

example : guess_dir_name "https://example.com/foo.git".toList false false = some "foo".toList := by decide
example : guess_dir_name "host.xz:2222".toList false false = some "host.xz".toList := by decide
example : guess_dir_name "/foo/bar:2222.git".toList false false = some "2222".toList := by decide
example : guess_dir_name "foo:bar.git".toList false false = some "bar".toList := by decide
example : guess_dir_name "https://user%40host:2222/x.git".toList false false = some "x".toList := by decide
example : guess_dir_name "/src/repo/.git/".toList false false = some "repo".toList := by decide
example : guess_dir_name "a b".toList false false = some "a b".toList := by decide
example : guess_dir_name "foo.git.git".toList false false = some "foo.git".toList := by decide
example : guess_dir_name "foo.git".toList false false = some "foo".toList := by decide
example : guess_dir_name "x/a@b".toList false false = some "a@b".toList := by decide
example : guess_dir_name "a@b".toList false false = some "b".toList := by decide
example : guess_dir_name "foo".toList false true = some "foo.git".toList := by decide
example : guess_dir_name "foo.bundle".toList true false = some "foo".toList := by decide

/-! ## Ref store and ref transactions

Object ids are represented by their 40-character hex form (`sha1_to_hex`
is injective, and every ref-name construction in the source goes through
it). A ref store is an association list from ref names to object ids. -/

abbrev Oid := String

abbrev RefStore := List (String × Oid)

def ref_exists (s : RefStore) (n : String) : Bool := s.any (fun p => p.1 == n)

def lookupRef (s : RefStore) (n : String) : Option Oid :=
  (s.find? (fun p => p.1 == n)).map (fun p => p.2)

/-- Modelled from the spec: `initial_ref_transaction_commit` (ref-store
interface, spec section 6) commits an atomic group of ref creations; on
success all queued creations become visible, on failure none do (the
error value carries the unchanged store). The backend is not part of the
source tree. -/
def initial_ref_transaction_commit (commit_ok : Bool) (t : List (String × Oid))
    (s : RefStore) : Except RefStore RefStore :=
  if commit_ok then .ok (s ++ t) else .error s

/-- Queued creations of `write_remote_refs`, clone.c:616-622: one
`ref_transaction_create` per mapped ref that has a peer name and whose
peer name does not already exist in the store. -/
def plannedCreates (s : RefStore) (peers : List (Option String × Oid)) :
    List (String × Oid) :=
  peers.filterMap (fun r =>
    match r.1 with
    | none => none
    | some p => if ref_exists s p then none else some (p, r.2))

/-- write_remote_refs, clone.c:605-629: one transaction holding all
planned creations, committed once; a failed commit is a `die`, returned
here as `.error` carrying the unchanged store. A mapped ref is given as
its optional peer name (`peer_ref->name`) and its object id
(`old_oid`). -/
def write_remote_refs (commit_ok : Bool) (peers : List (Option String × Oid))
    (s : RefStore) : Except RefStore RefStore :=
  initial_ref_transaction_commit commit_ok (plannedCreates s peers) s

/-! ## ResumeRecord (clone.c:498-509, 1064-1078) -/

structure alt_resource where
  url : List Char
  filetype : List Char
deriving DecidableEq, Repr

/-- write_resumable_resource, clone.c:498-509: the file content is
`"%s\n%s\n"` of url and filetype. -/
def write_resumable_resource (a : alt_resource) : List Char :=
  a.url ++ ('\n' :: (a.filetype ++ ['\n']))

/-- Modelled from the spec: `strbuf_getline` (strbuf library, not in the
source tree) reads one line, consuming and discarding its terminating
newline. -/
def strbuf_getline (l : List Char) : List Char × List Char :=
  (l.takeWhile (fun c => !(c = '\n')), (l.dropWhile (fun c => !(c = '\n'))).drop 1)

/-- get_last_alt_resource, clone.c:1064-1078: line 1 is the url, line 2
the filetype. -/
def get_last_alt_resource (content : List Char) : alt_resource :=
  let p1 := strbuf_getline content
  let p2 := strbuf_getline p1.2
  ⟨p1.1, p2.1⟩

example : get_last_alt_resource (write_resumable_resource ⟨"http://h/p.pack".toList, "pack".toList⟩)
    = ⟨"http://h/p.pack".toList, "pack".toList⟩ := by decide

/-! ## Primer temporary refs (clone.c:883-1031) -/

/-- replace_extension, clone.c:883-904: splice the replacement over the
suffix; an input not ending in the suffix yields the empty string (the
strbuf stays empty). -/
def replace_extension (filename existing replacement : List Char) : List Char :=
  if existing.isSuffixOf filename then
    filename.take (filename.length - existing.length) ++ replacement
  else []

/-- Temporary ref name for one bundle tip, clone.c:943-945:
`refs/temp/<origin>/resume/temp-<hex id>`. -/
def temp_ref_name (origin : String) (oid : Oid) : String :=
  "refs/temp/" ++ origin ++ "/resume/temp-" ++ oid

/-- write_bundle_refs, clone.c:929-964: for every tip of the bundle
header, queue a creation of its temporary ref unless the name already
exists; commit once. `none` is the -1 failure return (commit failed);
on success the result carries the new store and the list of ref names
that were added to the transaction. -/
def write_bundle_refs (origin : String) (tips : List Oid) (store : RefStore)
    (commit_ok : Bool) : Option (RefStore × List String) :=
  let creates := tips.filterMap (fun t =>
    if ref_exists store (temp_ref_name origin t) then none
    else some (temp_ref_name origin t, t))
  match initial_ref_transaction_commit commit_ok creates store with
  | .ok s2 => some (s2, creates.map (fun p => p.1))
  | .error _ => none

/-- delete_ref (ref-store interface): deletes the ref only when its
current value matches the given object id. -/
def delete_ref (store : RefStore) (name : String) (oid : Oid) : RefStore :=
  if lookupRef store name = some oid then store.filter (fun p => !(p.1 == name))
  else store

/-- One iteration of the Done-phase deletion loop, clone.c:999-1010:
delete the tip's temporary ref when it exists, recording the name. -/
def clean_ref_step (origin : String) (acc : RefStore × List String) (t : Oid) :
    RefStore × List String :=
  let n := temp_ref_name origin t
  if ref_exists acc.1 n then (delete_ref acc.1 n t, acc.2 ++ [n]) else acc

theorem clean_ref_step_eq (origin : String) (st : RefStore) (ac : List String) (t : Oid) :
    clean_ref_step origin (st, ac) t
      = if ref_exists st (temp_ref_name origin t) = true
          then (delete_ref st (temp_ref_name origin t) t, ac ++ [temp_ref_name origin t])
          else (st, ac) := rfl

/-- clean_alt_resource_pack, clone.c:983-1031. `tips` are the bundle
header's tip ids (re-read from the `.bndl` file, which is derived from
the same pack as in write_bundle_refs). Returns the resulting store, the
list of temporary ref names deleted (in order), and the list of file
paths unlinked (in order). With `prime_successful` the pack, `.temp` and
`.idx` files are kept and only the `.bndl` is unlinked; without it the
refs are kept and the pack artifacts are unlinked. -/
def clean_alt_resource_pack (origin : String) (tips : List Oid) (store : RefStore)
    (file_exists : List Char → Bool) (resource_path : Option (List Char))
    (prime_successful : Bool) : RefStore × List String × List (List Char) :=
  match resource_path with
  | none => (store, [], [])
  | some rp =>
    let bndl := replace_extension rp ".pack".toList ".bndl".toList
    let refStep := tips.foldl (clean_ref_step origin) (store, ([] : List String))
    let store1 := if prime_successful then refStep.1 else store
    let delRefs := if prime_successful then refStep.2 else []
    let idx := replace_extension rp ".pack".toList ".idx".toList
    let delFiles1 :=
      if prime_successful then []
      else (if file_exists rp then [rp] else [])
        ++ (if file_exists (rp ++ ".temp".toList) then [rp ++ ".temp".toList] else [])
        ++ (if file_exists idx then [idx] else [])
    let delFiles2 := if file_exists bndl then [bndl] else []
    (store1, delRefs, delFiles1 ++ delFiles2)

/-! ## JunkMode and the primer adoption block (clone.c:476-481, 1460-1472) -/

inductive junk_mode_t
  | leave_none
  | leave_resumable
  | leave_repo
  | leave_all
deriving DecidableEq, Repr

/-- use_alt_resource, clone.c:975-981 with use_alt_resource_pack,
clone.c:966-973: succeeds (returns 0) only for filetype "pack" when
indexing produced a bundle path and write_bundle_refs succeeded.
`index_ok` stands for setup_and_index_pack returning a non-NULL bundle
path (the index-pack subprocess is external), `bundle_refs_ok` for
write_bundle_refs returning 0. -/
def use_alt_resource_ok (filetype : List Char) (index_ok bundle_refs_ok : Bool) : Bool :=
  filetype = "pack".toList && index_ok && bundle_refs_ok

/-- clean_alt_resource, clone.c:1049-1053: dispatches on the filetype;
only "pack" cleans anything. Result: unlinked file paths. -/
def clean_alt_resource_files (a : alt_resource) (origin : String) (tips : List Oid)
    (store : RefStore) (file_exists : List Char → Bool)
    (resource_path : Option (List Char)) (prime_successful : Bool) : List (List Char) :=
  if a.filetype = "pack".toList then
    (clean_alt_resource_pack origin tips store file_exists resource_path
      prime_successful).2.2
  else []

/-- Result of the primer block: the junk mode, the surviving
`alt_res`, the surviving `resource_path`, and the file paths the
cleanup unlinked. -/
abbrev PrimerResult := junk_mode_t × Option alt_resource × Option (List Char) × List (List Char)

/-- Primer adoption block of cmd_clone, clone.c:1460-1472. `fetched` is
the result of fetch_alt_resource (the downloaded path, or `none` on
download failure); `index_ok`/`bundle_refs_ok` decide use_alt_resource.
On failure in resume mode the block dies; otherwise it resets the junk
mode, cleans the artifacts and drops the primer. -/
def primer_block (option_resume : Bool) (alt0 : Option alt_resource)
    (junk0 : junk_mode_t) (fetched : Option (List Char))
    (index_ok bundle_refs_ok : Bool) (origin : String) (tips : List Oid)
    (store : RefStore) (file_exists : List Char → Bool) :
    Except String PrimerResult :=
  match alt0 with
  | none => .ok (junk0, none, none, [])
  | some a =>
    let failed := fetched = none
      || !(use_alt_resource_ok a.filetype index_ok bundle_refs_ok)
    if failed then
      if option_resume then
        .error "resumable resource is no longer available or usable"
      else
        .ok (junk_mode_t.leave_none, none, none,
          clean_alt_resource_files a origin tips store file_exists fetched false)
    else .ok (junk_mode_t.leave_resumable, some a, fetched, [])

/-! ## Warning-bearing fragments (clone.c:1362-1374 and 1439-1453)

Each fragment is modelled twice: once as written (emitting its warnings
as a write-only log) and once, clearly marked, following the spec's
words "had the warning not been emitted" (identical control flow with
the emissions removed). -/

/-- Local-clone detection, clone.c:1362-1374. `option_local` is the
tristate -1/0/1; `path_found` is get_repo_path succeeding on the remote
url; `shallow_file` is `access(mkpath("%s/shallow", path))` succeeding.
Returns the final `is_local` and the warnings emitted. -/
def local_detect (option_local : Int) (path_found is_bundle : Bool)
    (depth_set shallow_file : Bool) : Bool × List String :=
  let is_local0 := option_local ≠ 0 && path_found && !is_bundle
  let step :=
    if is_local0 then
      let w1 := if depth_set then ["--depth is ignored in local clones; use file:// instead."] else []
      if shallow_file then
        (false, w1 ++ (if 0 < option_local then ["source repository is shallow, ignoring --local"] else []))
      else (true, w1)
    else (false, [])
  let wlast := if 0 < option_local && !step.1 then ["--local is ignored"] else []
  (step.1, step.2 ++ wlast)

/-- Spec-side variant of `local_detect` with the warning emissions
removed ("had the warning not been emitted"). -/
def local_detect_spec_nowarn (option_local : Int) (path_found is_bundle : Bool)
    (_depth_set shallow_file : Bool) : Bool :=
  let is_local0 := option_local ≠ 0 && path_found && !is_bundle
  if is_local0 then
    if shallow_file then false else true
  else false

/-- Empty-remote branch of cmd_clone, clone.c:1439-1453 (the `else` arm
taken when the remote advertised no refs). Returns either the fatal
error (when --branch was given) or the pair (option_no_checkout set,
branch config installed for master when not bare), plus the warnings
emitted. -/
def empty_remote_case (option_branch : Option String) (bare : Bool) (origin : String) :
    Except String (Bool × Option (String × String)) × List String :=
  match option_branch with
  | some b => (.error ("Remote branch " ++ b ++ " not found in upstream " ++ origin), [])
  | none =>
    (.ok (true, if bare then none else some ("master", "refs/heads/" ++ "master")),
     ["You appear to have cloned an empty repository."])

/-- Spec-side variant of `empty_remote_case` with the warning emission
removed. -/
def empty_remote_case_spec_nowarn (option_branch : Option String) (bare : Bool)
    (origin : String) : Except String (Bool × Option (String × String)) :=
  match option_branch with
  | some b => .error ("Remote branch " ++ b ++ " not found in upstream " ++ origin)
  | none => .ok (true, if bare then none else some ("master", "refs/heads/" ++ "master"))

/-! ## Orchestrator front end (cmd_clone, clone.c:1159-1355)

The model covers cmd_clone from entry through setup_reference: option
validation, the resume-mode state recovery, destination planning and
creation, repository initialization, initial configuration, and
reference-repository registration. Later phases (transport, fetch, ref
install, checkout) are represented by the `proceed` outcome. The trace
component records every on-disk mutating call, in source order. -/

/-- strip_trailing_slashes, clone.c:281-288: drops trailing directory
separators but never shortens the string below one character. -/
def c_strip_trailing_slashes (l : List Char) : List Char :=
  let r := dropTrailing isDirSep l
  if r = [] then l.take 1 else r

/-- String-level wrapper of `c_strip_trailing_slashes`. -/
def strip_trailing_slashes_str (s : String) : String :=
  String.mk (c_strip_trailing_slashes s.toList)

/-- get_filename, clone.c:290-303: the component after the last
directory separator of the (unstripped) input; `none` when there is no
separator or nothing follows the last one. -/
def get_filename (s : String) : Option String :=
  if '/' ∈ s.toList then
    let tail := (s.toList.reverse.takeWhile (fun c => !(c = '/'))).reverse
    if tail = [] then none else some (String.mk tail)
  else none

example : get_filename "/a/b/.git" = some ".git" := by decide
example : get_filename "/a/b/" = none := by decide
example : get_filename "foo" = none := by decide

/-- On-disk mutating calls of the modelled cmd_clone region. -/
inductive Event
  | createLeadingDirs (p : String)
  | mkdirWorkTree (p : String)
  | createLeadingGitDir (p : String)
  | initDb
  | writeCmdlineConfig
  | configSet (key value : String)
  | addAlternate (p : String)
deriving DecidableEq, Repr

inductive Outcome
  | proceed
  | fatal (msg : String)
deriving DecidableEq, Repr

/-- Options of cmd_clone after option parsing. `optionWords` counts the
argv words consumed by the option parser excluding the command word
itself; `positionals` is argc after parsing. Only options the modelled
region consults are included. -/
structure CloneOpts where
  resume : Bool
  bare : Bool
  mirror : Bool
  origin : Option String
  separateGitDir : Option String
  depth : Option Int
  references : List String
  configPairs : Nat
  optionWords : Nat
  positionals : Nat
  argv0 : String
  argv1 : String

/-- Environment of the modelled region: filesystem probes, path
resolution, and the configuration recovered from an existing destination
(`remote.*`, `core.bare`, `core.worktree`, as read by get_remote_info,
clone.c:1088-1112). -/
structure Env where
  realPath : String → String
  file_exists : String → Bool
  isGitDirectory : String → Bool
  resolveGitdir : String → String
  remoteName : Option String
  fetchPattern : Option String
  coreWorktree : Option String
  coreBare : Bool
  coreMirror : Bool
  writableDir : String → Bool
  getRepoPath : String → Option (String × Bool)
  statExists : String → Bool
  isEmptyDir : String → Bool
  gitWorkTreeEnv : Option String
  readGitfile : String → Option String
  isDirectory : String → Bool
  getCommonDir : String → Bool

/-- get_existing_state, clone.c:1114-1157: derive git_dir and work tree
from an existing destination; errors are the `die` calls. -/
def get_existing_state (e : Env) (dir : String) :
    Except String (String × Option String) :=
  let gdwt : Option String × Option String :=
    if e.isGitDirectory dir then (some dir, none)
    else if e.file_exists (dir ++ "/.git") then
      (some (e.resolveGitdir (dir ++ "/.git")), some dir)
    else (none, none)
  match gdwt.1 with
  | none => .error ("'" ++ dir ++ "' does not appear to be a git repo.")
  | some gd =>
    match gdwt.2 with
    | some wt => .ok (gd, some wt)
    | none =>
      match e.coreWorktree with
      | some w => .ok (gd, some w)
      | none =>
        if e.coreBare then .ok (gd, none)
        else
          match get_filename gd with
          | some f =>
            if f = ".git" then
              let wt := e.realPath (gd ++ "/..")
              if e.writableDir wt then .ok (gd, some wt)
              else .error ("'" ++ dir ++ "' is configured for a work tree, but no candidate exists.")
            else .error ("'" ++ dir ++ "' is configured for a work tree, but no candidate exists.")
          | none => .error ("'" ++ dir ++ "' is configured for a work tree, but no candidate exists.")

/-- add_one_reference, clone.c:305-346: resolve the reference
repository, follow a gitfile indirection, validate it, and produce the
alternates entry; errors are the `die` calls. -/
def add_one_reference (e : Env) (item : String) : Except String String :=
  let rg0 := e.realPath item
  let repo := match e.readGitfile rg0 with
    | some r => some r
    | none => e.readGitfile (rg0 ++ "/.git")
  let rg1 := match repo with
    | some r => r
    | none => rg0
  let checked : Except String String :=
    if repo = none && e.isDirectory (rg0 ++ "/.git/objects") then
      .ok (rg0 ++ "/.git")
    else if !(e.isDirectory (rg1 ++ "/objects")) then
      if e.getCommonDir rg1 then
        .error ("reference repository '" ++ item ++ "' as a linked checkout is not supported yet.")
      else .error ("reference repository '" ++ item ++ "' is not a local repository.")
    else .ok rg1
  match checked with
  | .error m => .error m
  | .ok rg =>
    if e.file_exists (rg ++ "/shallow") then
      .error ("reference repository '" ++ item ++ "' is shallow")
    else if e.file_exists (rg ++ "/info/grafts") then
      .error ("reference repository '" ++ item ++ "' is grafted")
    else .ok (rg ++ "/objects")

/-- setup_reference, clone.c:348-351: register each reference
repository in order, stopping at the first fatal one; returns the
alternates events emitted and the error, if any. -/
def setup_reference (e : Env) : List String → List Event × Option String
  | [] => ([], none)
  | r :: rs =>
    match add_one_reference e r with
    | .error m => ([], some m)
    | .ok alt =>
      let rest := setup_reference e rs
      (Event.addAlternate alt :: rest.1, rest.2)

/-- Destination directory, clone.c:1270-1274: the second positional
argument if given, else guess_dir_name; trailing slashes stripped. -/
def destDir (o : CloneOpts) (e : Env) (bare : Bool) : Option String :=
  let is_bundle := (((e.getRepoPath o.argv0).map (fun p => p.2)).getD false)
  let raw : Option String :=
    if o.positionals = 2 then some o.argv1
    else (guess_dir_name o.argv0.toList is_bundle bare).map String.mk
  raw.map strip_trailing_slashes_str

/-- Resume branch of cmd_clone, clone.c:1222-1254. Everything up to the
ResumeRecord check only reads; the junk registration and mode transition
happen after the check succeeds, so a die in this branch leaves no
cleanup handler and no mutation. -/
def cmd_clone_resume (o : CloneOpts) (e : Env) : List Event × Outcome :=
  let dir := strip_trailing_slashes_str (e.realPath o.argv0)
  if !(e.file_exists dir) then
    ([], .fatal ("directory '" ++ dir ++ "' does not exist."))
  else
    match get_existing_state e dir with
    | .error m => ([], .fatal m)
    | .ok (gd, _wt) =>
      if !(e.file_exists (gd ++ "/resumable")) then
        ([], .fatal "--resume option used, but current directory is not resumable")
      else ([], .proceed)

/-- Non-resume branch of cmd_clone, clone.c:1256-1352: source
resolution, destination planning, directory creation, repository
initialization, initial configuration and reference registration. -/
def cmd_clone_nonresume (o : CloneOpts) (e : Env) (bare : Bool) (origin : String) :
    List Event × Outcome :=
  let pathInfo := e.getRepoPath o.argv0
  if pathInfo = none && !(':' ∈ o.argv0.toList) then
    ([], .fatal ("repository '" ++ o.argv0 ++ "' does not exist"))
  else if (match o.depth with | some d => decide (d < 1) | none => false) then
    ([], .fatal "depth is not a positive number")
  else
    match destDir o e bare with
    | none => ([], .fatal "No directory name could be guessed.")
    | some dir =>
      let dest_exists := e.statExists dir
      if dest_exists && !(e.isEmptyDir dir) then
        ([], .fatal ("destination path '" ++ dir ++ "' already exists and is not an empty directory."))
      else
        let wtEnv := if bare then none else e.gitWorkTreeEnv
        if (match wtEnv with | some w => e.statExists w | none => false) then
          ([], .fatal "working tree already exists.")
        else
          let work_tree : Option String :=
            if bare || wtEnv.isSome then wtEnv else some dir
          let git_dir0 : String :=
            if bare || wtEnv.isSome then dir else dir ++ "/.git"
          let evs1 : List Event :=
            match work_tree with
            | some wt =>
              Event.createLeadingDirs wt ::
                (if dest_exists then [] else [Event.mkdirWorkTree wt])
            | none => []
          let evs2 : List Event :=
            [Event.createLeadingGitDir git_dir0, Event.initDb]
              ++ (if o.configPairs = 0 then [] else [Event.writeCmdlineConfig])
              ++ (if bare then [Event.configSet "core.bare" "true"] else [])
              ++ [Event.configSet ("remote." ++ origin ++ ".url") o.argv0]
          let refStep := setup_reference e o.references
          match refStep.2 with
          | some m => (evs1 ++ evs2 ++ refStep.1, .fatal m)
          | none => (evs1 ++ evs2 ++ refStep.1, .proceed)

/-- cmd_clone front end, clone.c:1181-1352: option validation in source
order, then the resume or non-resume branch. -/
def cmd_clone (o : CloneOpts) (e : Env) : List Event × Outcome :=
  if o.resume && 2 < o.optionWords + 1 then
    ([], .fatal "--resume is incompatible with all other options.")
  else if o.resume && o.positionals ≠ 1 then
    ([], .fatal "--resume must be specified with a single resumable directory.")
  else if 2 < o.positionals then ([], .fatal "Too many arguments.")
  else if o.positionals = 0 then ([], .fatal "You must specify a repository to clone.")
  else
    let bare := o.bare || o.mirror
    if bare && o.origin.isSome then
      ([], .fatal "--bare and --origin options are incompatible.")
    else if bare && o.separateGitDir.isSome then
      ([], .fatal "--bare and --separate-git-dir are incompatible.")
    else
      let origin := o.origin.getD "origin"
      if o.resume then cmd_clone_resume o e
      else cmd_clone_nonresume o e bare origin

/-! ## Helper lemmas on the ref store -/

theorem lookupRef_append (s t : RefStore) (n : String) :
    lookupRef (s ++ t) n = (lookupRef s n).or (lookupRef t n) := by
  unfold lookupRef
  rw [List.find?_append]
  cases s.find? (fun p => p.1 == n) <;> simp

theorem ref_exists_false_iff (s : RefStore) (n : String) :
    ref_exists s n = false ↔ lookupRef s n = none := by
  unfold ref_exists lookupRef
  rw [← Bool.not_eq_true, List.any_eq_true]
  simp only [beq_iff_eq, Option.map_eq_none', List.find?_eq_none, not_exists, not_and,
    Prod.forall, decide_eq_true_eq]

theorem ref_exists_of_lookup (s : RefStore) (n : String) (v : Oid)
    (h : lookupRef s n = some v) : ref_exists s n = true := by
  by_contra hc
  rw [Bool.not_eq_true] at hc
  rw [(ref_exists_false_iff s n).mp hc] at h
  cases h

theorem lookup_of_mem_nodup (l : RefStore) (p : String) (v : Oid)
    (h : (p, v) ∈ l) (hn : (l.map (fun q => q.1)).Nodup) :
    lookupRef l p = some v := by
  induction l with
  | nil => simp at h
  | cons a tl ih =>
    simp only [List.map_cons, List.nodup_cons] at hn
    rcases List.mem_cons.mp h with h1 | h1
    · rw [← h1]
      unfold lookupRef
      rw [List.find?_cons]
      rw [show (((p, v).1 == p) : Bool) = true from by simp]
      rfl
    · have hk : p ∈ tl.map (fun q => q.1) := List.mem_map.mpr ⟨(p, v), h1, rfl⟩
      have hne : a.1 ≠ p := fun hc => hn.1 (hc ▸ hk)
      unfold lookupRef
      rw [List.find?_cons]
      rw [show ((a.1 == p) : Bool) = false from by simpa using hne]
      exact ih h1 hn.2

theorem mem_plannedCreates_of (s : RefStore) (peers : List (Option String × Oid))
    (r : Option String × Oid) (p : String) (hr : r ∈ peers) (hp : r.1 = some p)
    (hex : ref_exists s p = false) : (p, r.2) ∈ plannedCreates s peers := by
  unfold plannedCreates
  refine List.mem_filterMap.mpr ⟨r, hr, ?_⟩
  rw [hp]
  show (if ref_exists s p = true then none else some (p, r.2)) = some (p, r.2)
  rw [hex]
  simp

theorem plannedCreates_key_fresh (s : RefStore) (peers : List (Option String × Oid))
    (q : String × Oid) (hq : q ∈ plannedCreates s peers) : ref_exists s q.1 = false := by
  unfold plannedCreates at hq
  obtain ⟨r, _, hf⟩ := List.mem_filterMap.mp hq
  cases hr1 : r.1 with
  | none => rw [hr1] at hf; cases hf
  | some pn =>
    rw [hr1] at hf
    have hf' : (if ref_exists s pn = true then none else some (pn, r.2)) = some q := hf
    cases hb : ref_exists s pn with
    | true => rw [hb] at hf'; simp at hf'
    | false =>
      rw [hb] at hf'
      simp only [Bool.false_eq_true, if_false, Option.some.injEq] at hf'
      rw [← hf']
      exact hb

/-! ## Claim theorems -/

/-- Claim C1: write_remote_refs groups all mapped-ref creations into one
ref transaction committed once. On a successful commit every mapped ref
with a peer name is visible with its advertised object id (given that no
peer name pre-exists — the refs are *created* — and peer names are
unique, the RefSet uniqueness invariant); a failed commit is fatal and
installs none: the store is unchanged, where no mapped ref is visible. -/
theorem claim_C1_atomic_ref_install (peers : List (Option String × Oid)) (s : RefStore)
    (hnew : ∀ r ∈ peers, ∀ p, r.1 = some p → ref_exists s p = false)
    (hnodup : ((plannedCreates s peers).map (fun q => q.1)).Nodup) :
    (write_remote_refs true peers s = .ok (s ++ plannedCreates s peers)
      ∧ ∀ r ∈ peers, ∀ p, r.1 = some p →
          lookupRef (s ++ plannedCreates s peers) p = some r.2)
    ∧ (write_remote_refs false peers s = .error s
      ∧ ∀ r ∈ peers, ∀ p, r.1 = some p → lookupRef s p = none) := by
  refine ⟨⟨rfl, ?_⟩, rfl, ?_⟩
  · intro r hr p hp
    have hex := hnew r hr p hp
    have hmem := mem_plannedCreates_of s peers r p hr hp hex
    rw [lookupRef_append, (ref_exists_false_iff s p).mp hex]
    simpa using lookup_of_mem_nodup _ p r.2 hmem hnodup
  · intro r hr p hp
    exact (ref_exists_false_iff s p).mp (hnew r hr p hp)

/-- Claim C1 witness data. -/
def c1Peers : List (Option String × Oid) :=
  [(some "refs/remotes/origin/master", "aa"), (none, "bb")]

theorem claim_C1_atomic_ref_install_witness :
    write_remote_refs true c1Peers [] = .ok ([] ++ plannedCreates [] c1Peers)
    ∧ write_remote_refs false c1Peers [] = .error [] :=
  ⟨(claim_C1_atomic_ref_install c1Peers []
      (by intro r hr p hp
          rcases List.mem_cons.mp hr with h | h
          · rw [h] at hp; cases hp; rfl
          · simp only [c1Peers, List.mem_cons, List.mem_singleton] at h
            rcases h with h | h
            · rw [h] at hp; cases hp
            · cases h)
      (by decide)).1.1,
   (claim_C1_atomic_ref_install c1Peers []
      (by intro r hr p hp
          rcases List.mem_cons.mp hr with h | h
          · rw [h] at hp; cases hp; rfl
          · simp only [c1Peers, List.mem_cons, List.mem_singleton] at h
            rcases h with h | h
            · rw [h] at hp; cases hp
            · cases h)
      (by decide)).2.1⟩

/-- Claim C10: a mapped ref whose local peer name already exists in the
destination store is skipped: no creation for that name enters the
transaction, and after a successful install the pre-existing ref still
has its old value. -/
theorem claim_C10_no_overwrite (peers : List (Option String × Oid)) (s : RefStore)
    (p : String) (v : Oid) (hv : lookupRef s p = some v) :
    (∀ q ∈ plannedCreates s peers, q.1 ≠ p)
    ∧ ∀ s2, write_remote_refs true peers s = .ok s2 → lookupRef s2 p = some v := by
  constructor
  · intro q hq hqp
    have hfresh := plannedCreates_key_fresh s peers q hq
    rw [hqp, ref_exists_of_lookup s p v hv] at hfresh
    cases hfresh
  · intro s2 hs2
    have h2 : s ++ plannedCreates s peers = s2 := by
      unfold write_remote_refs initial_ref_transaction_commit at hs2
      simpa using hs2
    rw [← h2, lookupRef_append, hv]
    rfl

theorem claim_C10_no_overwrite_witness :
    lookupRef ([("refs/heads/x", "aa")]
      ++ plannedCreates [("refs/heads/x", "aa")] [(some "refs/heads/x", "bb")])
      "refs/heads/x" = some "aa" :=
  (claim_C10_no_overwrite [(some "refs/heads/x", "bb")] [("refs/heads/x", "aa")]
    "refs/heads/x" "aa" (by decide)).2
    ([("refs/heads/x", "aa")]
      ++ plannedCreates [("refs/heads/x", "aa")] [(some "refs/heads/x", "bb")]) rfl

/-- Claim C2: a primer failure at any stage — download
(`fetched = none`), indexing, or temporary-ref install (either making
use_alt_resource fail) — is recoverable when not resuming: the junk mode
returns to `leave_none`, the primer and its resource path are dropped,
and the block's result equals the result of a run that never had a
primer; the cleanup unlinks exactly what clean_alt_resource(path, 0)
unlinks. The same failure in --resume mode is fatal. -/
theorem claim_C2_primer_failure_modes (a : alt_resource) (junk0 : junk_mode_t)
    (fetched : Option (List Char)) (index_ok bundle_refs_ok : Bool) (origin : String)
    (tips : List Oid) (store : RefStore) (fe : List Char → Bool)
    (hfail : fetched = none ∨ use_alt_resource_ok a.filetype index_ok bundle_refs_ok = false) :
    (primer_block false (some a) junk0 fetched index_ok bundle_refs_ok origin tips store fe
      = .ok (junk_mode_t.leave_none, none, none,
          clean_alt_resource_files a origin tips store fe fetched false))
    ∧ (primer_block false none junk_mode_t.leave_none fetched index_ok bundle_refs_ok
        origin tips store fe = .ok (junk_mode_t.leave_none, none, none, []))
    ∧ (primer_block true (some a) junk0 fetched index_ok bundle_refs_ok origin tips store fe
      = .error "resumable resource is no longer available or usable") := by
  have hb : (decide (fetched = none)
      || !(use_alt_resource_ok a.filetype index_ok bundle_refs_ok)) = true := by
    rcases hfail with h | h
    · simp [h]
    · simp [h]
  refine ⟨?_, rfl, ?_⟩
  · show (if (decide (fetched = none)
        || !(use_alt_resource_ok a.filetype index_ok bundle_refs_ok)) = true
      then if false = true
        then Except.error "resumable resource is no longer available or usable"
        else Except.ok (junk_mode_t.leave_none, none, none,
          clean_alt_resource_files a origin tips store fe fetched false)
      else Except.ok (junk_mode_t.leave_resumable, some a, fetched, [])) = _
    rw [hb]
    rfl
  · show (if (decide (fetched = none)
        || !(use_alt_resource_ok a.filetype index_ok bundle_refs_ok)) = true
      then if true = true
        then Except.error "resumable resource is no longer available or usable"
        else Except.ok (junk_mode_t.leave_none, none, none,
          clean_alt_resource_files a origin tips store fe fetched false)
      else Except.ok (junk_mode_t.leave_resumable, some a, fetched, [])) = _
    rw [hb]
    rfl

theorem claim_C2_primer_failure_modes_witness :
    primer_block true (some ⟨"http://h/p".toList, "pack".toList⟩) junk_mode_t.leave_resumable
      none true true "origin" [] [] (fun _ => false)
      = .error "resumable resource is no longer available or usable" :=
  (claim_C2_primer_failure_modes ⟨"http://h/p".toList, "pack".toList⟩
    junk_mode_t.leave_resumable none true true "origin" [] [] (fun _ => false)
    (Or.inl rfl)).2.2

/-- Claim C5: the warnings of the local-clone detection (empty remote,
ignored --local, shallow source) are write-only: the state component of
each warning-bearing fragment equals the spec-side variant in which the
emission is removed, on every input. -/
theorem claim_C5_warnings_write_only :
    (∀ (ol : Int) (pf ib ds sf : Bool),
        (local_detect ol pf ib ds sf).1 = local_detect_spec_nowarn ol pf ib ds sf)
    ∧ ∀ (ob : Option String) (bare : Bool) (origin : String),
        (empty_remote_case ob bare origin).1 = empty_remote_case_spec_nowarn ob bare origin := by
  constructor
  · intro ol pf ib ds sf
    unfold local_detect local_detect_spec_nowarn
    by_cases h0 : ol = 0 <;> cases pf <;> cases ib <;> cases ds <;> cases sf <;> simp [h0]
  · intro ob bare origin
    cases ob <;> rfl

/-- Claim C8 counterexample: an AltResource whose url contains a newline
does not round-trip through the ResumeRecord file. -/
theorem claim_C8_roundtrip_cx :
    get_last_alt_resource (write_resumable_resource ⟨"a\nb".toList, "pack".toList⟩)
      ≠ ⟨"a\nb".toList, "pack".toList⟩ := by decide

theorem takeWhile_newline_append (u rest : List Char) (h : '\n' ∉ u) :
    (u ++ '\n' :: rest).takeWhile (fun c => !(c = '\n')) = u := by
  induction u with
  | nil => simp
  | cons c cs ih =>
    simp only [List.mem_cons, not_or] at h
    simp only [List.cons_append, List.takeWhile_cons]
    rw [if_pos (by simp; exact fun hc => h.1 hc.symm)]
    rw [ih h.2]

theorem dropWhile_newline_append (u rest : List Char) (h : '\n' ∉ u) :
    (u ++ '\n' :: rest).dropWhile (fun c => !(c = '\n')) = '\n' :: rest := by
  induction u with
  | nil => simp
  | cons c cs ih =>
    simp only [List.mem_cons, not_or] at h
    simp only [List.cons_append, List.dropWhile_cons]
    rw [if_pos (by simp; exact fun hc => h.1 hc.symm)]
    exact ih h.2

/-- Claim C8 amended: the ResumeRecord written for an AltResource whose
url and filetype contain no newline has exactly two newline-terminated
lines — line 1 the url, line 2 the filetype — and reading it back on
resume yields the same AltResource. -/
theorem claim_C8_roundtrip (a : alt_resource)
    (hu : '\n' ∉ a.url) (hf : '\n' ∉ a.filetype) :
    (write_resumable_resource a).count '\n' = 2
    ∧ strbuf_getline (write_resumable_resource a) = (a.url, a.filetype ++ ['\n'])
    ∧ get_last_alt_resource (write_resumable_resource a) = a := by
  have h1 : (a.url ++ '\n' :: (a.filetype ++ ['\n'])).takeWhile (fun c => !(c = '\n'))
      = a.url := takeWhile_newline_append a.url (a.filetype ++ ['\n']) hu
  have h2 : (a.url ++ '\n' :: (a.filetype ++ ['\n'])).dropWhile (fun c => !(c = '\n'))
      = '\n' :: (a.filetype ++ ['\n']) :=
    dropWhile_newline_append a.url (a.filetype ++ ['\n']) hu
  have h3 : (a.filetype ++ ['\n']).takeWhile (fun c => !(c = '\n')) = a.filetype := by
    have := takeWhile_newline_append a.filetype [] hf
    simpa using this
  refine ⟨?_, ?_, ?_⟩
  · unfold write_resumable_resource
    simp [List.count_append, List.count_cons,
      List.count_eq_zero.mpr hu, List.count_eq_zero.mpr hf]
  · unfold write_resumable_resource strbuf_getline
    rw [h1, h2]
    rfl
  · unfold write_resumable_resource get_last_alt_resource strbuf_getline
    simp only [h1, h2, List.drop_succ_cons, List.drop_zero, h3]

theorem claim_C8_roundtrip_witness :
    get_last_alt_resource (write_resumable_resource ⟨"http://h/p.pack".toList, "pack".toList⟩)
      = ⟨"http://h/p.pack".toList, "pack".toList⟩ :=
  (claim_C8_roundtrip ⟨"http://h/p.pack".toList, "pack".toList⟩
    (by decide) (by decide)).2.2

theorem replace_extension_append (base sfx repl : List Char) :
    replace_extension (base ++ sfx) sfx repl = base ++ repl := by
  unfold replace_extension
  rw [if_pos (List.isSuffixOf_iff_suffix.mpr (List.suffix_append base sfx))]
  have h : (base ++ sfx).length - sfx.length = base.length := by
    rw [List.length_append]
    omega
  rw [h, List.take_left]

theorem creates_eq_map (origin : String) (tips : List Oid) (store : RefStore)
    (hfresh : ∀ t ∈ tips, ref_exists store (temp_ref_name origin t) = false) :
    tips.filterMap (fun t =>
      if ref_exists store (temp_ref_name origin t) then none
      else some (temp_ref_name origin t, t))
    = tips.map (fun t => (temp_ref_name origin t, t)) := by
  induction tips with
  | nil => rfl
  | cons t ts ih =>
    simp only [List.filterMap_cons, List.map_cons]
    rw [hfresh t (by simp)]
    simp only [Bool.false_eq_true, if_false]
    rw [ih (fun x hx => hfresh x (by simp [hx]))]

theorem ref_exists_forall_false (s : RefStore) (n : String) :
    ref_exists s n = false ↔ ∀ p ∈ s, (p.1 == n) = false := by
  unfold ref_exists
  rw [← Bool.not_eq_true, List.any_eq_true]
  simp only [beq_iff_eq, not_exists, not_and, Prod.forall, beq_eq_false_iff_ne, ne_eq]

theorem delete_ref_append_cons (base rest : RefStore) (n : String) (t : Oid)
    (hb : ref_exists base n = false)
    (hr : ∀ p ∈ rest, (p.1 == n) = false) :
    delete_ref (base ++ (n, t) :: rest) n t = base ++ rest := by
  unfold delete_ref
  rw [if_pos]
  · rw [List.filter_append, List.filter_cons]
    rw [(List.filter_eq_self).mpr
      (fun p hp => by rw [(ref_exists_forall_false base n).mp hb p hp]; rfl)]
    rw [(List.filter_eq_self).mpr (fun p hp => by rw [hr p hp]; rfl)]
    simp
  · rw [lookupRef_append, (ref_exists_false_iff base n).mp hb]
    unfold lookupRef
    rw [List.find?_cons]
    rw [show ((n, t).1 == n) = true from by simp]
    rfl

theorem clean_fold_deletes_all (origin : String) (tips : List Oid) :
    ∀ (base : RefStore) (acc : List String),
      (∀ t ∈ tips, ref_exists base (temp_ref_name origin t) = false) →
      (tips.map (temp_ref_name origin)).Nodup →
      tips.foldl (clean_ref_step origin)
        (base ++ tips.map (fun t => (temp_ref_name origin t, t)), acc)
      = (base, acc ++ tips.map (temp_ref_name origin)) := by
  induction tips with
  | nil => intro base acc _ _; simp
  | cons t ts ih =>
    intro base acc hfresh hnodup
    simp only [List.map_cons, List.nodup_cons] at hnodup
    have hex : ref_exists
        (base ++ (temp_ref_name origin t, t) :: ts.map (fun x => (temp_ref_name origin x, x)))
        (temp_ref_name origin t) = true := by
      unfold ref_exists
      rw [List.any_append, List.any_cons]
      simp
    have hrest : ∀ p ∈ ts.map (fun x => (temp_ref_name origin x, x)),
        (p.1 == temp_ref_name origin t) = false := by
      intro p hp
      obtain ⟨x, hx, hpx⟩ := List.mem_map.mp hp
      rw [← hpx]
      simp only [beq_eq_false_iff_ne, ne_eq]
      intro hc
      exact hnodup.1 (hc ▸ List.mem_map.mpr ⟨x, hx, rfl⟩)
    have hstep : clean_ref_step origin
        (base ++ (temp_ref_name origin t, t) :: ts.map (fun x => (temp_ref_name origin x, x)), acc) t
        = (base ++ ts.map (fun x => (temp_ref_name origin x, x)),
           acc ++ [temp_ref_name origin t]) := by
      rw [clean_ref_step_eq, hex]
      simp only [if_true]
      rw [delete_ref_append_cons base _ _ t (hfresh t (by simp)) hrest]
    simp only [List.map_cons, List.foldl_cons]
    rw [hstep, ih base (acc ++ [temp_ref_name origin t])
      (fun x hx => hfresh x (by simp [hx])) hnodup.2]
    simp

/-- Claim C6 counterexample data: the temporary ref for tip "ab" already
exists before the Installing phase runs (the situation of every --resume
invocation whose previous run had installed its temporary refs). -/
def c6Store : RefStore := [(temp_ref_name "origin" "ab", "ab")]

/-- Claim C6 counterexample: with a pre-existing temporary ref the
Installing phase creates nothing (the transaction stays empty), yet the
Done cleanup deletes that ref: the deleted set has cardinality 1 against
a created set of cardinality 0, so the two sets differ. -/
theorem claim_C6_done_cleanup_cx :
    write_bundle_refs "origin" ["ab"] c6Store true = some (c6Store, [])
    ∧ (clean_alt_resource_pack "origin" ["ab"] c6Store (fun _ => true)
        (some "x.pack".toList) true).2.1 = [temp_ref_name "origin" "ab"] := by decide

/-- Claim C6 amended: when no temporary ref name derived from the
bundle's tips pre-exists at Installing time (and the tips are distinct),
the Done-phase cleanup deletes exactly the refs the Installing phase
created — same names, same order, same cardinality — restores the store,
unlinks the `.bndl` file (when present) and unlinks neither the `.pack`
nor its `.idx`. -/
theorem claim_C6_done_cleanup (origin : String) (tips : List Oid) (store : RefStore)
    (fe : List Char → Bool) (base : List Char)
    (hfresh : ∀ t ∈ tips, ref_exists store (temp_ref_name origin t) = false)
    (hnodup : (tips.map (temp_ref_name origin)).Nodup) :
    write_bundle_refs origin tips store true
      = some (store ++ tips.map (fun t => (temp_ref_name origin t, t)),
              tips.map (temp_ref_name origin))
    ∧ clean_alt_resource_pack origin tips
        (store ++ tips.map (fun t => (temp_ref_name origin t, t))) fe
        (some (base ++ ".pack".toList)) true
      = (store, tips.map (temp_ref_name origin),
         if fe (base ++ ".bndl".toList) then [base ++ ".bndl".toList] else [])
    ∧ (base ++ ".pack".toList)
        ∉ (clean_alt_resource_pack origin tips
            (store ++ tips.map (fun t => (temp_ref_name origin t, t))) fe
            (some (base ++ ".pack".toList)) true).2.2
    ∧ (base ++ ".idx".toList)
        ∉ (clean_alt_resource_pack origin tips
            (store ++ tips.map (fun t => (temp_ref_name origin t, t))) fe
            (some (base ++ ".pack".toList)) true).2.2 := by
  have hw : write_bundle_refs origin tips store true
      = some (store ++ tips.map (fun t => (temp_ref_name origin t, t)),
              tips.map (temp_ref_name origin)) := by
    unfold write_bundle_refs initial_ref_transaction_commit
    rw [creates_eq_map origin tips store hfresh]
    simp [List.map_map]
  have hfresh2 : ∀ t ∈ tips, ref_exists store (temp_ref_name origin t) = false := hfresh
  have hclean : clean_alt_resource_pack origin tips
      (store ++ tips.map (fun t => (temp_ref_name origin t, t))) fe
      (some (base ++ ".pack".toList)) true
      = (store, tips.map (temp_ref_name origin),
         if fe (base ++ ".bndl".toList) then [base ++ ".bndl".toList] else []) := by
    unfold clean_alt_resource_pack
    rw [clean_fold_deletes_all origin tips store [] hfresh2 hnodup]
    simp [replace_extension_append]
  refine ⟨hw, hclean, ?_, ?_⟩
  · rw [hclean]
    by_cases hfe : fe (base ++ ".bndl".toList) = true
    · rw [if_pos hfe]
      simp only [List.mem_singleton]
      intro hc
      exact absurd (List.append_cancel_left hc) (by decide)
    · rw [if_neg hfe]
      simp
  · rw [hclean]
    by_cases hfe : fe (base ++ ".bndl".toList) = true
    · rw [if_pos hfe]
      simp only [List.mem_singleton]
      intro hc
      exact absurd (List.append_cancel_left hc) (by decide)
    · rw [if_neg hfe]
      simp

theorem claim_C6_done_cleanup_witness :
    write_bundle_refs "origin" ["ab", "cd"] [] true
      = some ([] ++ ["ab", "cd"].map (fun t => (temp_ref_name "origin" t, t)),
              ["ab", "cd"].map (temp_ref_name "origin"))
    ∧ clean_alt_resource_pack "origin" ["ab", "cd"]
        ([] ++ ["ab", "cd"].map (fun t => (temp_ref_name "origin" t, t)))
        (fun _ => true) (some ("x".toList ++ ".pack".toList)) true
      = ([], ["ab", "cd"].map (temp_ref_name "origin"),
         if (fun _ => true) ("x".toList ++ ".bndl".toList)
           then ["x".toList ++ ".bndl".toList] else []) :=
  ⟨(claim_C6_done_cleanup "origin" ["ab", "cd"] [] (fun _ => true) "x".toList
      (by decide) (by decide)).1,
   (claim_C6_done_cleanup "origin" ["ab", "cd"] [] (fun _ => true) "x".toList
      (by decide) (by decide)).2.1⟩

/-- Claim C4 counterexample data: a local clone of /src with a shallow
reference repository /ref. -/
def c4Opts : CloneOpts :=
  { resume := false, bare := false, mirror := false, origin := none,
    separateGitDir := none, depth := none, references := ["/ref"], configPairs := 0,
    optionWords := 1, positionals := 1, argv0 := "/src", argv1 := "" }

/-- Claim C4 counterexample data: /ref resolves to a local repository
whose `shallow` marker file exists. -/
def c4Env : Env :=
  { realPath := id, file_exists := fun p => p == "/ref/shallow",
    isGitDirectory := fun _ => false, resolveGitdir := id, remoteName := none,
    fetchPattern := none, coreWorktree := none, coreBare := false,
    coreMirror := false, writableDir := fun _ => true,
    getRepoPath := fun p => if p == "/src" then some ("/src", false) else none,
    statExists := fun _ => false, isEmptyDir := fun _ => false,
    gitWorkTreeEnv := none, readGitfile := fun _ => none,
    isDirectory := fun p => p == "/ref/objects", getCommonDir := fun _ => false }

/-- Claim C4 counterexample: with a shallow reference repository the
clone does die, but only after destination directories exist: when the
shallow check fires, the trace already contains the work-tree creation
and the repository initialization. -/
theorem claim_C4_shallow_reference_cx :
    (cmd_clone c4Opts c4Env).2 = .fatal "reference repository '/ref' is shallow"
    ∧ Event.mkdirWorkTree "src" ∈ (cmd_clone c4Opts c4Env).1
    ∧ Event.initDb ∈ (cmd_clone c4Opts c4Env).1 := by decide

/-- Claim C4 amended: a non-bare clone invocation with --reference naming
a shallow reference repository fails with the fatal shallow
EnvironmentError, but only after the destination work tree was created
and the repository initialized; the created directories are junk in
leave_none mode, removed on exit. -/
theorem claim_C4_shallow_reference_dies_after_creation (o : CloneOpts) (e : Env)
    (d r : String) (rs : List String)
    (hres : o.resume = false) (hbare : o.bare = false) (hmir : o.mirror = false)
    (hpos : o.positionals = 1 ∨ o.positionals = 2)
    (hdepth : o.depth = none)
    (hsrc : e.getRepoPath o.argv0 ≠ none)
    (hdir : destDir o e false = some d)
    (hde : e.statExists d = false)
    (hwt : e.gitWorkTreeEnv = none)
    (hrefs : o.references = r :: rs)
    (hg1 : e.readGitfile (e.realPath r) = none)
    (hg2 : e.readGitfile (e.realPath r ++ "/.git") = none)
    (hnd : e.isDirectory (e.realPath r ++ "/.git/objects") = false)
    (hobj : e.isDirectory (e.realPath r ++ "/objects") = true)
    (hsh : e.file_exists (e.realPath r ++ "/shallow") = true) :
    (cmd_clone o e).2 = .fatal ("reference repository '" ++ r ++ "' is shallow")
    ∧ Event.mkdirWorkTree d ∈ (cmd_clone o e).1
    ∧ Event.initDb ∈ (cmd_clone o e).1 := by
  have har : add_one_reference e r
      = .error ("reference repository '" ++ r ++ "' is shallow") := by
    simp [add_one_reference, hg1, hg2, hnd, hobj, hsh]
  have h2 : ¬(2 < o.positionals) := by rcases hpos with h | h <;> omega
  have h3 : o.positionals ≠ 0 := by rcases hpos with h | h <;> omega
  unfold cmd_clone
  rw [hres, hbare, hmir]
  simp only [Bool.false_and, Bool.false_eq_true, if_false, Bool.or_self, h2, h3,
    if_true, Bool.false_or]
  simp [cmd_clone_nonresume, hdir, hsrc, hdepth, hde, hwt, hrefs,
    setup_reference, har]

theorem claim_C4_shallow_reference_dies_after_creation_witness :
    (cmd_clone c4Opts c4Env).2 = .fatal ("reference repository '" ++ "/ref" ++ "' is shallow")
    ∧ Event.mkdirWorkTree "src" ∈ (cmd_clone c4Opts c4Env).1
    ∧ Event.initDb ∈ (cmd_clone c4Opts c4Env).1 :=
  claim_C4_shallow_reference_dies_after_creation c4Opts c4Env "src" "/ref" []
    rfl rfl rfl (Or.inl rfl) rfl (by decide) (by decide) rfl rfl rfl
    rfl rfl (by decide) (by decide) (by decide)

/-- Claim C9: --resume together with any other option word, or with a
positional-argument count different from one, dies in validation before
the trace contains any on-disk effect. -/
theorem claim_C9_resume_validation (o : CloneOpts) (e : Env)
    (hr : o.resume = true)
    (h : 2 ≤ o.optionWords ∨ o.positionals ≠ 1) :
    (cmd_clone o e).1 = []
    ∧ ((cmd_clone o e).2 = .fatal "--resume is incompatible with all other options."
      ∨ (cmd_clone o e).2 = .fatal "--resume must be specified with a single resumable directory.") := by
  unfold cmd_clone
  rw [hr]
  by_cases h1 : 2 < o.optionWords + 1
  · simp [h1]
  · have hpos : o.positionals ≠ 1 := by
      rcases h with h | h
      · omega
      · exact h
    simp [h1, hpos]

/-- Claim C3: a --resume invocation (alone with its one positional
argument) whose target has no ResumeRecord fails with a fatal error and
the trace contains no on-disk mutation: the resume branch only reads
until the record check, and the junk handler is registered only after
the check succeeds. -/
theorem claim_C3_resume_without_record (o : CloneOpts) (e : Env)
    (hr : o.resume = true) (how : o.optionWords ≤ 1) (hpos : o.positionals = 1)
    (hnorec : (match get_existing_state e
        (strip_trailing_slashes_str (e.realPath o.argv0)) with
      | .ok (gd, _) => e.file_exists (gd ++ "/resumable")
      | .error _ => false) = false) :
    (cmd_clone o e).1 = [] ∧ ∃ m, (cmd_clone o e).2 = .fatal m := by
  unfold cmd_clone
  rw [hr]
  have h1 : ¬(2 < o.optionWords + 1) := by omega
  simp only [h1, hpos, Bool.true_and, decide_not]
  by_cases hb1 : ((o.bare || o.mirror) && o.origin.isSome) = true
  · simp [hb1]
  · by_cases hb2 : ((o.bare || o.mirror) && o.separateGitDir.isSome) = true
    · simp [hb1, hb2]
    · simp only [hb1, hb2, Bool.false_eq_true, if_false, if_true]
      unfold cmd_clone_resume
      cases hex : e.file_exists (strip_trailing_slashes_str (e.realPath o.argv0)) with
      | false => simp [hex]
      | true =>
        simp only [hex]
        cases hge : get_existing_state e
            (strip_trailing_slashes_str (e.realPath o.argv0)) with
        | error m => simp
        | ok gw =>
          rw [hge] at hnorec
          cases gw with
          | mk gd wt =>
            simp only at hnorec
            simp [hnorec]

/-- Claim C3 witness data. -/
def c3Opts : CloneOpts :=
  { resume := true, bare := false, mirror := false, origin := none,
    separateGitDir := none, depth := none, references := [], configPairs := 0,
    optionWords := 1, positionals := 1, argv0 := "/dst", argv1 := "" }

/-- Claim C3 witness data: the target is an existing bare repository
with no "resumable" file. -/
def c3Env : Env :=
  { realPath := id, file_exists := fun p => p == "/dst",
    isGitDirectory := fun p => p == "/dst", resolveGitdir := id,
    remoteName := some "origin", fetchPattern := none, coreWorktree := none,
    coreBare := true, coreMirror := false, writableDir := fun _ => true,
    getRepoPath := fun _ => none, statExists := fun _ => false,
    isEmptyDir := fun _ => false, gitWorkTreeEnv := none,
    readGitfile := fun _ => none, isDirectory := fun _ => false,
    getCommonDir := fun _ => false }

theorem claim_C3_resume_without_record_witness :
    (cmd_clone c3Opts c3Env).1 = [] ∧ ∃ m, (cmd_clone c3Opts c3Env).2 = .fatal m :=
  claim_C3_resume_without_record c3Opts c3Env rfl (by decide) rfl (by decide)

example : (cmd_clone c3Opts c3Env).2
    = .fatal "--resume option used, but current directory is not resumable" := by decide

/-! ### Lemmas for guess_dir_name idempotence (claim C7)

`spacelike a b` is the "no two consecutive spaces" relation of the
collapse output. -/

theorem ctrl_to_space_ge32 (c : Char) : 32 ≤ (ctrl_to_space c).toNat := by
  unfold ctrl_to_space
  by_cases h : c.toNat < 32
  · rw [if_pos h]; decide
  · rw [if_neg h]; omega

theorem ctrl_to_space_eq_self (c : Char) (h : 32 ≤ c.toNat) : ctrl_to_space c = c := by
  unfold ctrl_to_space
  rw [if_neg (by omega)]

theorem cIsSpace_of_ge32 (c : Char) (h32 : 32 ≤ c.toNat) (hs : cIsSpace c = true) :
    c = ' ' := by
  unfold cIsSpace at hs
  rcases Bool.or_eq_true_iff.mp hs with h | h
  · rcases Bool.or_eq_true_iff.mp h with h | h
    · rcases Bool.or_eq_true_iff.mp h with h | h
      · rcases Bool.or_eq_true_iff.mp h with h | h
        · rcases Bool.or_eq_true_iff.mp h with h | h
          · exact of_decide_eq_true h
          · exact absurd h32 (by rw [of_decide_eq_true h]; decide)
        · exact absurd h32 (by rw [of_decide_eq_true h]; decide)
      · have : c.toNat = 11 := of_decide_eq_true h
        omega
    · have : c.toNat = 12 := of_decide_eq_true h
      omega
  · exact absurd h32 (by rw [of_decide_eq_true h]; decide)

theorem cIsSpace_false_of_ge32_ne (c : Char) (h32 : 32 ≤ c.toNat) (hne : c ≠ ' ') :
    cIsSpace c = false := by
  cases h : cIsSpace c with
  | false => rfl
  | true => exact absurd (cIsSpace_of_ge32 c h32 h) hne

theorem collapseStep_mem (l : List Char) (b : Bool) (c : Char)
    (h : c ∈ collapseStep l b) : c = ' ' ∨ c ∈ l := by
  induction l generalizing b with
  | nil => simp [collapseStep] at h
  | cons a rest ih =>
    rw [show collapseStep (a :: rest) b
        = if cIsSpace (ctrl_to_space a) then
            (if b then collapseStep rest true
             else ctrl_to_space a :: collapseStep rest true)
          else ctrl_to_space a :: collapseStep rest false from rfl] at h
    by_cases hs : cIsSpace (ctrl_to_space a) = true
    · rw [if_pos hs] at h
      by_cases hb : b = true
      · rw [if_pos hb] at h
        rcases ih true h with h1 | h1
        · exact Or.inl h1
        · exact Or.inr (List.mem_cons_of_mem a h1)
      · rw [if_neg hb] at h
        rcases List.mem_cons.mp h with h1 | h1
        · left
          rw [h1]
          exact cIsSpace_of_ge32 _ (ctrl_to_space_ge32 a) hs
        · rcases ih true h1 with h2 | h2
          · exact Or.inl h2
          · exact Or.inr (List.mem_cons_of_mem a h2)
    · rw [if_neg hs] at h
      rcases List.mem_cons.mp h with h1 | h1
      · by_cases ha : a.toNat < 32
        · left
          rw [h1]
          unfold ctrl_to_space
          rw [if_pos ha]
        · right
          rw [h1]
          unfold ctrl_to_space
          rw [if_neg ha]
          exact List.mem_cons_self a rest
      · rcases ih false h1 with h2 | h2
        · exact Or.inl h2
        · exact Or.inr (List.mem_cons_of_mem a h2)

theorem collapseStep_ge32 (l : List Char) (b : Bool) (c : Char)
    (h : c ∈ collapseStep l b) : 32 ≤ c.toNat := by
  induction l generalizing b with
  | nil => simp [collapseStep] at h
  | cons a rest ih =>
    rw [show collapseStep (a :: rest) b
        = if cIsSpace (ctrl_to_space a) then
            (if b then collapseStep rest true
             else ctrl_to_space a :: collapseStep rest true)
          else ctrl_to_space a :: collapseStep rest false from rfl] at h
    by_cases hs : cIsSpace (ctrl_to_space a) = true
    · rw [if_pos hs] at h
      by_cases hb : b = true
      · rw [if_pos hb] at h
        exact ih true h
      · rw [if_neg hb] at h
        rcases List.mem_cons.mp h with h1 | h1
        · rw [h1]; exact ctrl_to_space_ge32 a
        · exact ih true h1
    · rw [if_neg hs] at h
      rcases List.mem_cons.mp h with h1 | h1
      · rw [h1]; exact ctrl_to_space_ge32 a
      · exact ih false h1

theorem collapseStep_head_ne_space (l : List Char) (c : Char)
    (h : (collapseStep l true).head? = some c) : c ≠ ' ' := by
  induction l with
  | nil => simp [collapseStep] at h
  | cons a rest ih =>
    rw [show collapseStep (a :: rest) true
        = if cIsSpace (ctrl_to_space a) then collapseStep rest true
          else ctrl_to_space a :: collapseStep rest false from rfl] at h
    by_cases hs : cIsSpace (ctrl_to_space a) = true
    · rw [if_pos hs] at h
      exact ih h
    · rw [if_neg hs] at h
      simp only [List.head?_cons, Option.some.injEq] at h
      rw [← h]
      intro hc
      exact hs (by rw [hc]; rfl)

/-- The no-two-consecutive-spaces relation of collapsed text. -/
def spacelike (a b : Char) : Prop := ¬(a = ' ' ∧ b = ' ')

theorem collapseStep_chain (l : List Char) (b : Bool) :
    (collapseStep l b).Chain' spacelike := by
  induction l generalizing b with
  | nil => simp [collapseStep]
  | cons a rest ih =>
    rw [show collapseStep (a :: rest) b
        = if cIsSpace (ctrl_to_space a) then
            (if b then collapseStep rest true
             else ctrl_to_space a :: collapseStep rest true)
          else ctrl_to_space a :: collapseStep rest false from rfl]
    by_cases hs : cIsSpace (ctrl_to_space a) = true
    · rw [if_pos hs]
      by_cases hb : b = true
      · rw [if_pos hb]
        exact ih true
      · rw [if_neg hb]
        rw [List.chain'_cons']
        refine ⟨?_, ih true⟩
        intro y hy
        intro hc
        exact collapseStep_head_ne_space rest y hy hc.2
    · rw [if_neg hs]
      rw [List.chain'_cons']
      refine ⟨?_, ih false⟩
      intro y hy
      intro hc
      exact hs (by rw [hc.1]; rfl)

theorem collapse_eq (l : List Char) :
    collapse l = if (collapseStep l true).getLast? = some ' '
      then (collapseStep l true).dropLast else collapseStep l true := rfl

theorem head?_dropLast_eq (l : List Char) (c : Char)
    (h : l.dropLast.head? = some c) : l.head? = some c := by
  cases l with
  | nil => simp at h
  | cons a rest =>
    cases rest with
    | nil => simp at h
    | cons b t =>
      rw [List.dropLast_cons₂] at h
      simpa using h

theorem collapse_mem (l : List Char) (c : Char) (h : c ∈ collapse l) :
    c = ' ' ∨ c ∈ l := by
  rw [collapse_eq] at h
  by_cases hg : (collapseStep l true).getLast? = some ' '
  · rw [if_pos hg] at h
    exact collapseStep_mem l true c (List.mem_of_mem_dropLast h)
  · rw [if_neg hg] at h
    exact collapseStep_mem l true c h

theorem collapse_ge32 (l : List Char) (c : Char) (h : c ∈ collapse l) :
    32 ≤ c.toNat := by
  rw [collapse_eq] at h
  by_cases hg : (collapseStep l true).getLast? = some ' '
  · rw [if_pos hg] at h
    exact collapseStep_ge32 l true c (List.mem_of_mem_dropLast h)
  · rw [if_neg hg] at h
    exact collapseStep_ge32 l true c h

theorem collapse_head_ne_space (l : List Char) (c : Char)
    (h : (collapse l).head? = some c) : c ≠ ' ' := by
  rw [collapse_eq] at h
  by_cases hg : (collapseStep l true).getLast? = some ' '
  · rw [if_pos hg] at h
    exact collapseStep_head_ne_space l c (head?_dropLast_eq _ c h)
  · rw [if_neg hg] at h
    exact collapseStep_head_ne_space l c h

theorem collapse_chain (l : List Char) : (collapse l).Chain' spacelike := by
  rw [collapse_eq]
  by_cases hg : (collapseStep l true).getLast? = some ' '
  · rw [if_pos hg]
    exact List.Chain'.prefix (collapseStep_chain l true) (List.dropLast_prefix _)
  · rw [if_neg hg]
    exact collapseStep_chain l true

theorem collapse_getLast_ne_space (l : List Char) (c : Char)
    (h : (collapse l).getLast? = some c) : c ≠ ' ' := by
  rw [collapse_eq] at h
  by_cases hg : (collapseStep l true).getLast? = some ' '
  · rw [if_pos hg] at h
    have hsplit : (collapseStep l true).dropLast ++ [' '] = collapseStep l true :=
      List.dropLast_append_getLast? ' ' (by simpa using hg)
    have hch : ((collapseStep l true).dropLast ++ [' ']).Chain' spacelike := by
      rw [hsplit]
      exact collapseStep_chain l true
    rw [List.chain'_append] at hch
    have hrel := hch.2.2 c (by simpa using h) ' ' (by simp)
    intro hc
    exact hrel ⟨hc, rfl⟩
  · rw [if_neg hg] at h
    intro hc
    rw [hc] at h
    exact hg h

theorem collapseStep_id (l : List Char) :
    ∀ (b : Bool), (∀ c ∈ l, 32 ≤ c.toNat) → l.Chain' spacelike →
      (b = true → ∀ c, l.head? = some c → c ≠ ' ') →
      collapseStep l b = l := by
  induction l with
  | nil => intro b _ _ _; rfl
  | cons a rest ih =>
    intro b h32 hch hhd
    have ha32 : 32 ≤ a.toNat := h32 a (List.mem_cons_self a rest)
    have hmap : ctrl_to_space a = a := ctrl_to_space_eq_self a ha32
    rw [show collapseStep (a :: rest) b
        = if cIsSpace (ctrl_to_space a) then
            (if b then collapseStep rest true
             else ctrl_to_space a :: collapseStep rest true)
          else ctrl_to_space a :: collapseStep rest false from rfl]
    rw [hmap]
    rw [List.chain'_cons'] at hch
    have h32r : ∀ c ∈ rest, 32 ≤ c.toNat :=
      fun c hc => h32 c (List.mem_cons_of_mem a hc)
    by_cases hs : cIsSpace a = true
    · have haeq : a = ' ' := cIsSpace_of_ge32 a ha32 hs
      rw [if_pos hs]
      cases b with
      | true => exact absurd haeq (hhd rfl a rfl)
      | false =>
        rw [if_neg (by simp)]
        congr 1
        refine ih true h32r hch.2 ?_
        intro _ c hc hsp
        exact hch.1 c hc ⟨haeq, hsp⟩
    · rw [if_neg hs]
      congr 1
      refine ih false h32r hch.2 ?_
      intro hfalse
      cases hfalse

theorem collapse_id (l : List Char)
    (h32 : ∀ c ∈ l, 32 ≤ c.toNat) (hch : l.Chain' spacelike)
    (hhd : ∀ c, l.head? = some c → c ≠ ' ')
    (hlst : ∀ c, l.getLast? = some c → c ≠ ' ') :
    collapse l = l := by
  rw [collapse_eq, collapseStep_id l true h32 hch (fun _ => hhd)]
  rw [if_neg (fun hg => hlst ' ' hg rfl)]

theorem collapse_idem (z : List Char) : collapse (collapse z) = collapse z :=
  collapse_id _ (fun c hc => collapse_ge32 z c hc) (collapse_chain z)
    (fun c hc => collapse_head_ne_space z c hc)
    (fun c hc => collapse_getLast_ne_space z c hc)

theorem mem_of_getLast?_eq (l : List Char) (a : Char) (h : l.getLast? = some a) :
    a ∈ l := by
  rw [← List.head?_reverse] at h
  rw [← List.mem_reverse]
  cases hl : l.reverse with
  | nil => rw [hl] at h; cases h
  | cons x xs =>
    rw [hl] at h
    simp only [List.head?_cons, Option.some.injEq] at h
    rw [← h]
    exact List.mem_cons_self x xs

theorem afterScheme_eq_none (l : List Char) (h : '/' ∉ l) : afterScheme l = none := by
  induction l with
  | nil => rfl
  | cons c cs ih =>
    have hcs : '/' ∉ cs := fun hm => h (List.mem_cons_of_mem c hm)
    rw [afterScheme.eq_def]
    split
    · rfl
    · rename_i rest heq
      injection heq with h1 h2
      exact absurd (h2 ▸ List.mem_cons_self '/' ('/' :: rest) : '/' ∈ cs) hcs
    · rename_i c2 rest2 hne heq
      injection heq with h1 h2
      rw [h2] at ih hcs
      exact ih hcs

theorem skipScheme_eq_self (l : List Char) (h : '/' ∉ l) : skipScheme l = l := by
  unfold skipScheme
  rw [afterScheme_eq_none l h]
  rfl

theorem afterLastAt_eq_none (l : List Char) (h : '@' ∉ l) : afterLastAt l = none := by
  induction l with
  | nil => rfl
  | cons c cs ih =>
    have hcs : '@' ∉ cs := fun hm => h (List.mem_cons_of_mem c hm)
    have hc : ¬(c = '@') := fun he => h (he ▸ List.mem_cons_self c cs)
    rw [show afterLastAt (c :: cs)
        = (if isDirSep c then none
           else match afterLastAt cs with
                | some r => some r
                | none => if c = '@' then some cs else none) from rfl]
    by_cases hd : isDirSep c = true
    · rw [if_pos hd]
    · rw [if_neg hd, ih hcs]
      simp [hc]

theorem stripAuth_eq_self (l : List Char) (h : '@' ∉ l) : stripAuth l = l := by
  unfold stripAuth
  rw [afterLastAt_eq_none l h]
  rfl

theorem dropTrailing_eq_self (p : Char → Bool) (l : List Char)
    (h : ∀ c, l.getLast? = some c → p c = false) : dropTrailing p l = l := by
  unfold dropTrailing
  cases hl : l.reverse with
  | nil =>
    rw [List.dropWhile_nil, ← hl, List.reverse_reverse]
  | cons a as =>
    have hlast : l.getLast? = some a := by
      rw [← List.head?_reverse, hl]
      rfl
    rw [List.dropWhile_cons, h a hlast]
    simp only [Bool.false_eq_true, if_false]
    rw [← hl, List.reverse_reverse]

theorem stripDotGit_eq_self (l : List Char) (h : '/' ∉ l) : stripDotGit l = l := by
  unfold stripDotGit
  rw [if_neg]
  intro hc
  have hsfx := (Bool.and_eq_true _ _).mp hc |>.2
  exact h ((List.isSuffixOf_iff_suffix.mp hsfx).subset (by simp))

theorem stripPort_eq_self (l : List Char) (h : ':' ∉ l) : stripPort l = l := by
  unfold stripPort
  by_cases h1 : '/' ∈ l
  · rw [if_pos h1]
  · rw [if_neg h1, if_pos h]

theorem lastComponent_eq_self (l : List Char) (h1 : '/' ∉ l) (h2 : ':' ∉ l) :
    lastComponent l = l := by
  unfold lastComponent
  rw [List.takeWhile_eq_self_iff.mpr, List.reverse_reverse]
  intro c hc
  have hc' : c ∈ l := List.mem_reverse.mp hc
  have e1 : c ≠ '/' := fun he => h1 (he ▸ hc')
  have e2 : c ≠ ':' := fun he => h2 (he ▸ hc')
  simp [isDirSep, e1, e2]

theorem lastComponent_mem (l : List Char) (c : Char) (h : c ∈ lastComponent l) :
    ¬(c = '/') ∧ ¬(c = ':') := by
  unfold lastComponent at h
  rw [List.mem_reverse] at h
  have hp := List.mem_takeWhile_imp h
  simp only [Bool.and_eq_true, Bool.not_eq_true'] at hp
  refine ⟨?_, ?_⟩
  · intro he
    have := hp.1
    rw [he] at this
    simp [isDirSep] at this
  · intro he
    have := hp.2
    rw [he] at this
    simp at this

theorem stripSuffixMem_subset (sfx l : List Char) (c : Char)
    (h : c ∈ stripSuffixMem sfx l) : c ∈ l := by
  unfold stripSuffixMem at h
  by_cases hs : sfx.isSuffixOf l = true
  · rw [if_pos hs] at h
    exact List.mem_of_mem_take h
  · rw [if_neg hs] at h
    exact h

theorem take_append_of_suffix (sfx l : List Char) (h : sfx.isSuffixOf l = true) :
    l.take (l.length - sfx.length) ++ sfx = l := by
  obtain ⟨t, ht⟩ := List.isSuffixOf_iff_suffix.mp h
  rw [← ht, List.length_append]
  have h2 : t.length + sfx.length - sfx.length = t.length := by omega
  rw [h2, List.take_left]

theorem guess_core_clean (repo : List Char) (ib : Bool) (c : Char)
    (h : c ∈ guess_core repo ib) : ¬(c = '/') ∧ ¬(c = ':') := by
  unfold guess_core at h
  exact lastComponent_mem _ c (stripSuffixMem_subset _ _ c h)

theorem guess_dir_name_eq (repo : List Char) (ib bare : Bool) :
    guess_dir_name repo ib bare
      = if (guess_core repo ib).length = 0
          || ((guess_core repo ib).length = 1 && guess_core repo ib = ['/']) then none
        else some (collapse (if bare then guess_core repo ib ++ ".git".toList
                             else guess_core repo ib)) := rfl

/-- Claim C7 counterexample: guess_dir_name is not idempotent — the
source "foo.git.git" guesses "foo.git", and feeding "foo.git" back (same
is_bundle and is_bare) guesses "foo", because strip_suffix removes one
".git" per invocation. -/
theorem claim_C7_guess_dir_name_idem_cx :
    guess_dir_name "foo.git.git".toList false false = some "foo.git".toList
    ∧ guess_dir_name "foo.git".toList false false = some "foo".toList
    ∧ "foo.git".toList ≠ "foo".toList := by decide

/-- Claim C7 amended: guess_dir_name is idempotent on every source whose
guessed name d satisfies: d contains no '@'; the invocation is not both
bare and bundle; for non-bare invocations d is nonempty and does not end
in the stripped suffix (".git", or ".bundle" for bundles); for bare
invocations d minus its final ".git" is nonempty. -/
theorem claim_C7_guess_dir_name_idem (s d : List Char) (ib bare : Bool)
    (h : guess_dir_name s ib bare = some d)
    (hat : '@' ∉ d)
    (hbb : ¬(bare = true ∧ ib = true))
    (hb : bare = true → ".git".toList.isSuffixOf d = true
        ∧ d.take (d.length - 4) ≠ [])
    (hnb : bare = false → d ≠ []
        ∧ (if ib then ".bundle".toList else ".git".toList).isSuffixOf d = false) :
    guess_dir_name d ib bare = some d := by
  rw [guess_dir_name_eq] at h
  by_cases hcond : ((guess_core s ib).length = 0
      || ((guess_core s ib).length = 1 && guess_core s ib = ['/'])) = true
  · rw [if_pos hcond] at h
    cases h
  · rw [if_neg hcond] at h
    injection h with hd
    cases bare with
    | false =>
      rw [if_neg (by simp)] at hd
      obtain ⟨hne, hsf⟩ := hnb rfl
      have hd_sep : '/' ∉ d := by
        intro hm
        rw [← hd] at hm
        rcases collapse_mem _ _ hm with h1 | h1
        · exact absurd h1 (by decide)
        · exact (guess_core_clean s ib '/' h1).1 rfl
      have hd_col : ':' ∉ d := by
        intro hm
        rw [← hd] at hm
        rcases collapse_mem _ _ hm with h1 | h1
        · exact absurd h1 (by decide)
        · exact (guess_core_clean s ib ':' h1).2 rfl
      have hd_collapse : collapse d = d := by
        rw [← hd, collapse_idem]
      have hd32 : ∀ c ∈ d, 32 ≤ c.toNat := by
        intro c hc
        rw [← hd] at hc
        exact collapse_ge32 _ c hc
      have hd_lst : ∀ c, d.getLast? = some c → c ≠ ' ' := by
        intro c hc
        rw [← hd] at hc
        exact collapse_getLast_ne_space _ c hc
      have e3 : dropTrailing (fun c => isDirSep c || cIsSpace c) d = d := by
        apply dropTrailing_eq_self
        intro c hc
        have hm : c ∈ d := mem_of_getLast?_eq d c hc
        have hsep : c ≠ '/' := fun he => hd_sep (he ▸ hm)
        simp [isDirSep, hsep,
          cIsSpace_false_of_ge32_ne c (hd32 c hm) (hd_lst c hc)]
      have hcore : guess_core d ib
          = stripSuffixMem (if ib then ".bundle".toList else ".git".toList) d := by
        unfold guess_core
        rw [skipScheme_eq_self d hd_sep, stripAuth_eq_self d hat, e3,
          stripDotGit_eq_self d hd_sep, stripPort_eq_self d hd_col,
          lastComponent_eq_self d hd_sep hd_col]
      have hcore2 : guess_core d ib = d := by
        rw [hcore]
        unfold stripSuffixMem
        rw [if_neg (by intro hc; rw [hc] at hsf; exact Bool.noConfusion hsf)]
      rw [guess_dir_name_eq, hcore2]
      have hc0 : ¬(d.length = 0) := fun h0 => hne (List.length_eq_zero.mp h0)
      have hc1 : ¬(d = ['/']) := fun h1 =>
        hd_sep (by rw [h1]; exact List.mem_singleton_self '/')
      rw [if_neg (by simp [hc0, hc1])]
      rw [if_neg (by simp)]
      rw [hd_collapse]
    | true =>
      rw [if_pos rfl] at hd
      have hib : ib = false := by
        cases ib with
        | true => exact absurd ⟨rfl, rfl⟩ hbb
        | false => rfl
      subst hib
      obtain ⟨hsf, hne⟩ := hb rfl
      have hz : ∀ c ∈ guess_core s false ++ ".git".toList,
          ¬(c = '/') ∧ ¬(c = ':') := by
        intro c hc
        rcases List.mem_append.mp hc with h1 | h1
        · exact guess_core_clean s false c h1
        · refine ⟨?_, ?_⟩ <;> (intro he; rw [he] at h1; revert h1; decide)
      have hd_sep : '/' ∉ d := by
        intro hm
        rw [← hd] at hm
        rcases collapse_mem _ _ hm with h1 | h1
        · exact absurd h1 (by decide)
        · exact (hz '/' h1).1 rfl
      have hd_col : ':' ∉ d := by
        intro hm
        rw [← hd] at hm
        rcases collapse_mem _ _ hm with h1 | h1
        · exact absurd h1 (by decide)
        · exact (hz ':' h1).2 rfl
      have hd_collapse : collapse d = d := by
        rw [← hd, collapse_idem]
      have hd32 : ∀ c ∈ d, 32 ≤ c.toNat := by
        intro c hc
        rw [← hd] at hc
        exact collapse_ge32 _ c hc
      have hd_lst : ∀ c, d.getLast? = some c → c ≠ ' ' := by
        intro c hc
        rw [← hd] at hc
        exact collapse_getLast_ne_space _ c hc
      have e3 : dropTrailing (fun c => isDirSep c || cIsSpace c) d = d := by
        apply dropTrailing_eq_self
        intro c hc
        have hm : c ∈ d := mem_of_getLast?_eq d c hc
        have hsep : c ≠ '/' := fun he => hd_sep (he ▸ hm)
        simp [isDirSep, hsep,
          cIsSpace_false_of_ge32_ne c (hd32 c hm) (hd_lst c hc)]
      have hcore : guess_core d false = stripSuffixMem ".git".toList d := by
        unfold guess_core
        rw [skipScheme_eq_self d hd_sep, stripAuth_eq_self d hat, e3,
          stripDotGit_eq_self d hd_sep, stripPort_eq_self d hd_col,
          lastComponent_eq_self d hd_sep hd_col]
        rfl
      have hcore2 : guess_core d false = d.take (d.length - 4) := by
        rw [hcore]
        unfold stripSuffixMem
        rw [if_pos hsf]
        rfl
      have hne2 : ¬((d.take (d.length - 4)).length = 0) := fun h0 =>
        hne (List.length_eq_zero.mp h0)
      have hlen4 : ¬(d.length - 4 = 0) := fun h0 =>
        hne (by rw [h0, List.take_zero])
      have hsl : ¬(d.take (d.length - 4) = ['/']) := by
        intro h1
        exact hd_sep (List.mem_of_mem_take
          (by rw [h1]; exact List.mem_singleton_self '/'))
      rw [guess_dir_name_eq, hcore2]
      rw [if_neg (by simp [hne2, hsl, hlen4])]
      rw [if_pos rfl]
      have hback : d.take (d.length - 4) ++ ".git".toList = d := by
        have hta := take_append_of_suffix ".git".toList d hsf
        rw [show (".git".toList).length = 4 from rfl] at hta
        exact hta
      rw [hback, hd_collapse]

theorem claim_C7_guess_dir_name_idem_witness :
    guess_dir_name "foo".toList false false = some "foo".toList :=
  claim_C7_guess_dir_name_idem "https://example.com/foo.git".toList "foo".toList
    false false (by decide) (by decide) (by decide)
    (fun hc => absurd hc (by decide)) (fun _ => ⟨by decide, by decide⟩)

theorem claim_C9_resume_validation_witness :
    (cmd_clone
      { resume := true, bare := false, mirror := false, origin := none,
        separateGitDir := none, depth := none, references := [], configPairs := 0,
        optionWords := 2, positionals := 1, argv0 := "/dst", argv1 := "" }
      { realPath := id, file_exists := fun _ => false, isGitDirectory := fun _ => false,
        resolveGitdir := id, remoteName := none, fetchPattern := none,
        coreWorktree := none, coreBare := false, coreMirror := false,
        writableDir := fun _ => false, getRepoPath := fun _ => none,
        statExists := fun _ => false, isEmptyDir := fun _ => false,
        gitWorkTreeEnv := none, readGitfile := fun _ => none,
        isDirectory := fun _ => false, getCommonDir := fun _ => false }).1 = [] :=
  (claim_C9_resume_validation _ _ rfl (Or.inl (by decide))).1

end CloneC
